import Mathlib

/-!
# Verification of the ic-aptos account addressing and authentication core

Shallow embedding of the `move-core-types` account address codec and the
`aptos-types` transaction authentication layer, with theorems checking the
natural-language specification against the code.

Conventions of the embedding:
* Rust `u8` bytes are `Nat` values, with `< 256` bounds carried as explicit
  hypotheses where a theorem needs them.
* Rust `&str` values are `List Char`; `str::len` is the list length (the
  inputs of interest are ASCII, where byte length and char count agree,
  and every non-ASCII char fails the hex check in the same way).
* `[u8; 32]` (`AccountAddress`, `AuthenticationKey`, `HashValue`) is a
  `List Nat`; parsing functions provably produce length-32 lists.
* Fallible Rust functions returning `Result<_, E>` become `Except E _`.
-/

set_option maxRecDepth 4000

deriving instance DecidableEq for Except

namespace IcAptos

/-! ## Hex primitives (the `hex` crate as used by `account_address.rs`) -/

/-- Value of one hex digit, accepting `0-9`, `a-f` and `A-F`
(the `hex` crate's `val` table). -/
def hexVal? (c : Char) : Option Nat :=
  if 48 ≤ c.toNat ∧ c.toNat ≤ 57 then some (c.toNat - 48)
  else if 97 ≤ c.toNat ∧ c.toNat ≤ 102 then some (c.toNat - 87)
  else if 65 ≤ c.toNat ∧ c.toNat ≤ 70 then some (c.toNat - 55)
  else none

/-- A char is a hex digit iff the `hex` crate assigns it a value. -/
def isHexDigit (c : Char) : Bool :=
  (hexVal? c).isSome

/-- Lowercase hex digit of a value `< 16` (`hex::encode` output alphabet). -/
def encodeDigit (n : Nat) : Char :=
  if n < 10 then Char.ofNat (48 + n) else Char.ofNat (97 + (n - 10))

/-- Two lowercase hex chars of one byte, high nibble first. -/
def hexEncodeByte (b : Nat) : List Char :=
  [encodeDigit (b / 16), encodeDigit (b % 16)]

/-- `hex::encode`: lowercase hex string of a byte sequence. -/
def hexEncode : List Nat → List Char
  | [] => []
  | b :: bs => hexEncodeByte b ++ hexEncode bs

/-- Pairwise hex decoding (the `hex` crate's `from_hex` core): consumes two
chars per byte, fails on a non-hex char or an odd length. -/
def decodePairs : List Char → Option (List Nat)
  | [] => some []
  | [_] => none
  | c0 :: c1 :: rest =>
    (hexVal? c0).bind fun hi =>
      (hexVal? c1).bind fun lo =>
        (decodePairs rest).map fun bs => (16 * hi + lo) :: bs

/-! ## AccountAddress (`move-core-types/src/account_address.rs`) -/

/-- `AccountAddress([u8; 32])`: 32 raw bytes. -/
abbrev AccountAddress := List Nat

/-- `AccountAddressParseError`. The Rust `InvalidHexChars` variant carries a
diagnostic message string, elided here; both hex-crate failure modes
(invalid char, wrong length) map onto it, exactly as in the source. -/
inductive AccountAddressParseError where
  | IncorrectNumberOfBytes
  | InvalidHexChars
  | TooShort
  | TooLong
  | LeadingZeroXRequired
  | LongFormRequiredUnlessSpecial
  | InvalidPaddingZeroes
deriving DecidableEq

/-- `AccountAddress::from_hex`: `<[u8; 32]>::from_hex` demands exactly 64 hex
chars; both the length failure and an invalid character are surfaced as
`InvalidHexChars`. -/
def from_hex (s : List Char) : Except AccountAddressParseError AccountAddress :=
  if s.length = 64 then
    match decodePairs s with
    | some bs => .ok bs
    | none => .error .InvalidHexChars
  else .error .InvalidHexChars

/-- `AccountAddress::from_hex_literal`: requires a `0x` prefix, left-pads the
hex part with zeros up to 64 chars when it is shorter. -/
def from_hex_literal (literal : List Char) : Except AccountAddressParseError AccountAddress :=
  if literal.take 2 = ['0', 'x'] then
    if literal.length - 2 < 64 then
      from_hex (List.replicate (64 - (literal.length - 2)) '0' ++ literal.drop 2)
    else
      from_hex (literal.drop 2)
  else .error .LeadingZeroXRequired

/-- `<AccountAddress as FromStr>::from_str` (relaxed parsing). -/
def from_str (s : List Char) : Except AccountAddressParseError AccountAddress :=
  if s.take 2 = ['0', 'x'] then
    if s.length = 2 then .error .TooShort
    else from_hex_literal s
  else
    if s = [] then .error .TooShort
    else from_hex_literal ('0' :: 'x' :: s)

/-- `AccountAddress::is_special`: first 31 bytes zero and last byte `< 16`. -/
def is_special (a : AccountAddress) : Bool :=
  (a.take 31).all (· == 0) && decide (a.getD 31 0 < 16)

/-- `AccountAddress::from_str_strict` (AIP-40 strict parsing). -/
def from_str_strict (s : List Char) : Except AccountAddressParseError AccountAddress :=
  if s.take 2 = ['0', 'x'] then
    match from_str s with
    | .error e => .error e
    | .ok address =>
      if s.length ≠ 66 then
        if !is_special address then .error .LongFormRequiredUnlessSpecial
        else if s.length ≠ 3 then .error .InvalidPaddingZeroes
        else .ok address
      else .ok address
  else .error .LeadingZeroXRequired

/-- `AccountAddress::to_canonical_string`: `hex::encode(self.0)`. -/
def to_canonical_string (a : AccountAddress) : List Char :=
  hexEncode a

/-- `AccountAddress::short_str_lossless`: hex with leading zeros trimmed,
`"0"` when everything was trimmed. -/
def short_str_lossless (a : AccountAddress) : List Char :=
  if ((hexEncode a).dropWhile (· == '0')).isEmpty then ['0']
  else (hexEncode a).dropWhile (· == '0')

/-- `AccountAddress::to_standard_string` (AIP-40 canonical display). -/
def to_standard_string (a : AccountAddress) : List Char :=
  '0' :: 'x' :: (if is_special a then short_str_lossless a else to_canonical_string a)

/-- `AccountAddress::to_big_uint`: `BigUint::from_bytes_be`. -/
def to_big_uint (a : AccountAddress) : Nat :=
  a.foldl (fun acc b => acc * 256 + b) 0

/-! ## Authentication keys (`aptos-types/src/transaction/authenticator.rs`) -/

/-- `Scheme` with its `repr(u8)` discriminants. -/
inductive Scheme where
  | Ed25519
  | MultiEd25519
  | SingleKey
  | MultiKey
  | NoScheme
  | DeriveAuid
  | DeriveObjectAddressFromObject
  | DeriveObjectAddressFromGuid
  | DeriveObjectAddressFromSeed
  | DeriveResourceAccountAddress
deriving DecidableEq

/-- `scheme as u8`: the fixed one-byte discriminant of each scheme. -/
def Scheme.toU8 : Scheme → Nat
  | .Ed25519 => 0
  | .MultiEd25519 => 1
  | .SingleKey => 2
  | .MultiKey => 3
  | .NoScheme => 250
  | .DeriveAuid => 251
  | .DeriveObjectAddressFromObject => 252
  | .DeriveObjectAddressFromGuid => 253
  | .DeriveObjectAddressFromSeed => 254
  | .DeriveResourceAccountAddress => 255

/-- A 256-bit digest (`aptos_crypto::hash::HashValue`), as 32 raw bytes. -/
abbrev HashValue := List Nat

/-- The external SHA3-256 capability. `aptos-crypto/src/hash.rs` is not under
`src/`; the spec treats hashing as a consumed capability
`hash: bytes -> 32 bytes`, so derivations are parameterized by it. -/
abbrev Sha3 := List Nat → HashValue

/-- Modelled from the spec: `ed25519_keys.rs` is not under `src/`; the spec
treats the Ed25519 primitive as opaque, a public key being its raw bytes
(exposed by `to_bytes`). -/
structure Ed25519PublicKey where
  to_bytes : List Nat
deriving DecidableEq

/-- Modelled from the spec: `ed25519_sigs.rs` is not under `src/`; a signature
is its raw bytes, checked only through the external verify capability. -/
structure Ed25519Signature where
  to_bytes : List Nat
deriving DecidableEq

/-- `AuthenticationKey([u8; 32])`. -/
abbrev AuthenticationKey := List Nat

/-- `AuthenticationKey::from_preimage`: push the scheme byte, then hash. -/
def from_preimage (sha3 : Sha3) (public_key_bytes : List Nat) (scheme : Scheme) :
    AuthenticationKey :=
  sha3 (public_key_bytes ++ [scheme.toU8])

/-- `u64::to_le_bytes`: 8 bytes, least significant first. -/
def u64_to_le_bytes (n : Nat) : List Nat :=
  (List.range 8).map fun i => n / 256 ^ i % 256

/-- `AuthenticationKey::auid`: extend the txn hash with the little-endian
counter, then derive under `Scheme::DeriveAuid`. -/
def AuthenticationKey.auid (sha3 : Sha3) (txn_hash : List Nat) (auid_counter : Nat) :
    AuthenticationKey :=
  from_preimage sha3 (txn_hash ++ u64_to_le_bytes auid_counter) Scheme.DeriveAuid

/-- `AuthenticationKey::object_address_from_object`: source bytes followed by
derive-from bytes, under `Scheme::DeriveObjectAddressFromObject`. -/
def AuthenticationKey.object_address_from_object (sha3 : Sha3)
    (source derive_from : AccountAddress) : AuthenticationKey :=
  from_preimage sha3 (source ++ derive_from) Scheme.DeriveObjectAddressFromObject

/-- `AuthenticationKey::ed25519`: derive from the raw public-key bytes. -/
def AuthenticationKey.ed25519 (sha3 : Sha3) (public_key : Ed25519PublicKey) :
    AuthenticationKey :=
  from_preimage sha3 public_key.to_bytes Scheme.Ed25519

/-! ## Authenticators -/

/-- `MAX_NUM_OF_SIGS`. -/
def MAX_NUM_OF_SIGS : Nat := 32

/-- `AccountAuthenticator`: the variant set present in the source. -/
inductive AccountAuthenticator where
  | Ed25519 (public_key : Ed25519PublicKey) (signature : Ed25519Signature)
  | NoAccountAuthenticator
deriving DecidableEq

/-- `AccountAuthenticator::scheme`. -/
def AccountAuthenticator.scheme : AccountAuthenticator → Scheme
  | .Ed25519 _ _ => .Ed25519
  | .NoAccountAuthenticator => .NoScheme

/-- `AccountAuthenticator::ed25519`. -/
def AccountAuthenticator.ed25519 (public_key : Ed25519PublicKey)
    (signature : Ed25519Signature) : AccountAuthenticator :=
  .Ed25519 public_key signature

/-- `AccountAuthenticator::public_key_bytes`. -/
def AccountAuthenticator.public_key_bytes : AccountAuthenticator → List Nat
  | .Ed25519 pk _ => pk.to_bytes
  | .NoAccountAuthenticator => []

/-- `AccountAuthenticator::signature_bytes`. -/
def AccountAuthenticator.signature_bytes : AccountAuthenticator → List Nat
  | .Ed25519 _ sig => sig.to_bytes
  | .NoAccountAuthenticator => []

/-- `AccountAuthenticator::authentication_key`: `None` for the no-auth
variant, otherwise derive from `public_key_bytes` and `scheme`. -/
def AccountAuthenticator.authentication_key (sha3 : Sha3) :
    AccountAuthenticator → Option AuthenticationKey
  | .NoAccountAuthenticator => none
  | a => some (from_preimage sha3 a.public_key_bytes a.scheme)

/-- `AccountAuthenticator::number_of_signatures`. -/
def AccountAuthenticator.number_of_signatures : AccountAuthenticator → Nat
  | .Ed25519 _ _ => 1
  | .NoAccountAuthenticator => 0

/-- `TransactionAuthenticator`: the single variant present in the source. -/
inductive TransactionAuthenticator where
  | Ed25519 (public_key : Ed25519PublicKey) (signature : Ed25519Signature)
deriving DecidableEq

/-- `TransactionAuthenticator::sender`. -/
def TransactionAuthenticator.sender : TransactionAuthenticator → AccountAuthenticator
  | .Ed25519 pk sig => AccountAuthenticator.ed25519 pk sig

/-! ## Transaction envelope (`aptos-types/src/transaction/mod.rs`) -/

/-- Modelled from the spec: `chain_id.rs` is not under `src/`; the spec
describes it as an opaque chain identifier binding a transaction to one
network instance. -/
structure ChainId where
  id : Nat
deriving DecidableEq

/-- Modelled from the spec: `script.rs` is not under `src/`; the spec treats
`Script` as an opaque payload (code plus arguments), modelled by its
serialized content. -/
structure Script where
  content : List Nat
deriving DecidableEq

/-- Modelled from the spec: `script.rs` is not under `src/`; an entry-function
payload, modelled by its serialized content. -/
structure EntryFunction where
  content : List Nat
deriving DecidableEq

/-- `DeprecatedPayload`, kept only for wire compatibility. -/
structure DeprecatedPayload where
  dummy_value : Nat
deriving DecidableEq

/-- `TransactionPayload`. -/
inductive TransactionPayload where
  | Script (s : Script)
  | ModuleBundle (d : DeprecatedPayload)
  | EntryFunction (f : EntryFunction)
deriving DecidableEq

/-- `RawTransaction`. -/
structure RawTransaction where
  sender : AccountAddress
  sequence_number : Nat
  payload : TransactionPayload
  max_gas_amount : Nat
  gas_unit_price : Nat
  expiration_timestamp_secs : Nat
  chain_id : ChainId
deriving DecidableEq

/-- The external Ed25519 verify capability of the spec:
`verify(message, public_key, signature) -> bool`. The source calls
`signature.verify(raw_txn, public_key)`, whose body lives outside `src/`. -/
abbrev SigVerify := RawTransaction → Ed25519PublicKey → Ed25519Signature → Bool

/-- `TransactionAuthenticator::verify`: dispatches on the variant and checks
the signature cryptographically. The `MAX_NUM_OF_SIGS` guard present in
upstream Aptos is commented out in this source and is faithfully absent
here. -/
def TransactionAuthenticator.verify (sigVerify : SigVerify)
    (auth : TransactionAuthenticator) (raw_txn : RawTransaction) : Bool :=
  match auth with
  | .Ed25519 pk sig => sigVerify raw_txn pk sig

/-- `SignedTransaction`: raw transaction, authenticator, and the three
`OnceCell` caches (a `OnceCell<T>` is an `Option T`: empty or populated). -/
structure SignedTransaction where
  raw_txn : RawTransaction
  authenticator : TransactionAuthenticator
  raw_txn_size : Option Nat
  authenticator_size : Option Nat
  committed_hash : Option HashValue
deriving DecidableEq

/-- `impl PartialEq for SignedTransaction`: equality over
`(raw_txn, authenticator)` only, ignoring the caches. -/
def SignedTransaction.eq (a b : SignedTransaction) : Bool :=
  decide (a.raw_txn = b.raw_txn) && decide (a.authenticator = b.authenticator)

/-- `SignedTransaction::new_signed_transaction`: fresh empty caches. -/
def SignedTransaction.new_signed_transaction (raw_txn : RawTransaction)
    (authenticator : TransactionAuthenticator) : SignedTransaction :=
  ⟨raw_txn, authenticator, none, none, none⟩

/-- `SignatureCheckedTransaction(SignedTransaction)`. -/
structure SignatureCheckedTransaction where
  inner : SignedTransaction
deriving DecidableEq

/-- `SignedTransaction::check_signature`: verify, then wrap unchanged. -/
def SignedTransaction.check_signature (sigVerify : SigVerify)
    (t : SignedTransaction) :
    Except Unit SignatureCheckedTransaction :=
  if TransactionAuthenticator.verify sigVerify t.authenticator t.raw_txn then
    .ok ⟨t⟩
  else .error ()

/-- `SignedTransaction::verify_signature`: the same check, not consuming. -/
def SignedTransaction.verify_signature (sigVerify : SigVerify)
    (t : SignedTransaction) : Except Unit Unit :=
  if TransactionAuthenticator.verify sigVerify t.authenticator t.raw_txn then
    .ok ()
  else .error ()

/-! ## Lemmas about the hex codec -/

theorem hexVal?_lt {c : Char} {v : Nat} (h : hexVal? c = some v) : v < 16 := by
  unfold hexVal? at h
  split at h
  · simp only [Option.some.injEq] at h
    omega
  · split at h
    · simp only [Option.some.injEq] at h
      omega
    · split at h
      · simp only [Option.some.injEq] at h
        omega
      · exact absurd h (by simp)

theorem isHexDigit_iff {c : Char} : isHexDigit c = true ↔ ∃ v, hexVal? c = some v := by
  simp [isHexDigit, Option.isSome_iff_exists]

theorem hexVal?_encodeDigit : ∀ n, n < 16 → hexVal? (encodeDigit n) = some n := by
  decide

theorem hexVal?_zero : hexVal? '0' = some 0 := by
  decide

theorem decodePairs_sound : ∀ (s : List Char) (bs : List Nat),
    decodePairs s = some bs →
    s.all isHexDigit = true ∧ s.length = 2 * bs.length ∧ ∀ b ∈ bs, b < 256
  | [], bs, h => by
    simp only [decodePairs, Option.some.injEq] at h
    subst h
    simp
  | [_], bs, h => by
    simp [decodePairs] at h
  | c0 :: c1 :: rest, bs, h => by
    cases hv0 : hexVal? c0 with
    | none => simp [decodePairs, hv0] at h
    | some hi =>
      cases hv1 : hexVal? c1 with
      | none => simp [decodePairs, hv0, hv1] at h
      | some lo =>
        cases hr : decodePairs rest with
        | none => simp [decodePairs, hv0, hv1, hr] at h
        | some tail =>
          obtain ⟨ihHex, ihLen, ihBnd⟩ := decodePairs_sound rest tail hr
          simp only [decodePairs, hv0, hv1, hr] at h
          simp only [Option.some_bind, Option.map_some', Option.some.injEq] at h
          subst h
          refine ⟨?_, ?_, ?_⟩
          · simp [List.all_cons, isHexDigit, hv0, hv1, ihHex]
          · simp only [List.length_cons, ihLen]
            omega
          · intro b hb
            simp only [List.mem_cons] at hb
            rcases hb with hb | hb
            · have h0 := hexVal?_lt hv0
              have h1 := hexVal?_lt hv1
              omega
            · exact ihBnd b hb

theorem decodePairs_complete : ∀ (s : List Char),
    s.all isHexDigit = true → s.length % 2 = 0 → ∃ bs, decodePairs s = some bs
  | [], _, _ => ⟨[], rfl⟩
  | [_], _, hlen => by simp at hlen
  | c0 :: c1 :: rest, hhex, hlen => by
    simp only [List.all_cons, Bool.and_eq_true] at hhex
    obtain ⟨h0, h1, hrest⟩ := hhex
    obtain ⟨hi, hv0⟩ := isHexDigit_iff.mp h0
    obtain ⟨lo, hv1⟩ := isHexDigit_iff.mp h1
    have hlen' : rest.length % 2 = 0 := by
      simp only [List.length_cons] at hlen
      omega
    obtain ⟨tail, htail⟩ := decodePairs_complete rest hrest hlen'
    exact ⟨(16 * hi + lo) :: tail, by simp [decodePairs, hv0, hv1, htail]⟩

theorem decodePairs_hexEncode : ∀ (bs : List Nat),
    (∀ b ∈ bs, b < 256) → decodePairs (hexEncode bs) = some bs
  | [], _ => rfl
  | b :: bs, hbnd => by
    have hb : b < 256 := hbnd b (by simp)
    have hrest := decodePairs_hexEncode bs fun x hx => hbnd x (by simp [hx])
    have hhi : hexVal? (encodeDigit (b / 16)) = some (b / 16) :=
      hexVal?_encodeDigit _ (by omega)
    have hlo : hexVal? (encodeDigit (b % 16)) = some (b % 16) :=
      hexVal?_encodeDigit _ (by omega)
    have hsplit : 16 * (b / 16) + b % 16 = b := by omega
    simp [hexEncode, hexEncodeByte, decodePairs, hhi, hlo, hrest, hsplit]

theorem hexEncode_length : ∀ (bs : List Nat), (hexEncode bs).length = 2 * bs.length
  | [] => rfl
  | b :: bs => by
    simp only [hexEncode, hexEncodeByte, List.cons_append, List.nil_append,
      List.length_cons, hexEncode_length bs]
    omega

theorem decodePairs_replicate_even : ∀ (k : Nat) (s : List Char),
    decodePairs (List.replicate (2 * k) '0' ++ s) =
      (decodePairs s).map fun bs => List.replicate k 0 ++ bs
  | 0, s => by
    cases hs : decodePairs s <;> simp [hs]
  | k + 1, s => by
    have hrw : List.replicate (2 * (k + 1)) '0' = '0' :: '0' :: List.replicate (2 * k) '0' := by
      have : 2 * (k + 1) = 2 * k + 1 + 1 := by omega
      rw [this]
      simp [List.replicate_succ]
    rw [hrw]
    have ih := decodePairs_replicate_even k s
    cases hs : decodePairs s with
    | none =>
      rw [hs] at ih
      simp only [Option.map_none'] at ih
      simp [List.cons_append, decodePairs, hexVal?_zero, ih]
    | some bs =>
      rw [hs] at ih
      simp only [Option.map_some'] at ih
      simp [List.cons_append, decodePairs, hexVal?_zero, ih, List.replicate_succ]

/-! ## Structural lemmas about the address parsers -/

theorem from_hex_ok {s : List Char} {a : AccountAddress} (h : from_hex s = .ok a) :
    s.length = 64 ∧ s.all isHexDigit = true ∧ decodePairs s = some a ∧
      a.length = 32 ∧ ∀ b ∈ a, b < 256 := by
  unfold from_hex at h
  split at h
  · rename_i hlen
    split at h
    · rename_i bs hbs
      cases h
      obtain ⟨hhex, hlen2, hbnd⟩ := decodePairs_sound s a hbs
      exact ⟨hlen, hhex, hbs, by omega, hbnd⟩
    · cases h
  · cases h

theorem from_hex_ok_iff {s : List Char} :
    (∃ a, from_hex s = .ok a) ↔ s.length = 64 ∧ s.all isHexDigit = true := by
  constructor
  · rintro ⟨a, ha⟩
    have := from_hex_ok ha
    exact ⟨this.1, this.2.1⟩
  · rintro ⟨hlen, hhex⟩
    obtain ⟨bs, hbs⟩ := decodePairs_complete s hhex (by omega)
    exact ⟨bs, by unfold from_hex; rw [if_pos hlen, hbs]⟩

theorem from_hex_not_ok {s : List Char} (h : ∀ a, from_hex s ≠ .ok a) :
    from_hex s = .error .InvalidHexChars := by
  unfold from_hex
  split
  · rename_i hlen
    split
    · rename_i bs hbs
      exact absurd (by unfold from_hex; rw [if_pos hlen, hbs]) (h bs)
    · rfl
  · rfl

theorem take_two_split {s : List Char} (h : s.take 2 = ['0', 'x']) :
    ∃ t, s = '0' :: 'x' :: t := by
  match s with
  | [] => simp at h
  | [_] => simp at h
  | c0 :: c1 :: t =>
    simp only [List.take_succ_cons, List.take_zero, List.cons.injEq, and_true] at h
    exact ⟨t, by rw [h.1, h.2]⟩

theorem from_str_pad_pfx {t : List Char} (ht : t ≠ []) :
    from_str ('0' :: 'x' :: t) =
      from_hex (List.replicate (64 - t.length) '0' ++ t) := by
  have htpos : 0 < t.length := List.length_pos.mpr ht
  have hA : (('0' :: 'x' :: t).take 2 : List Char) = ['0', 'x'] := rfl
  unfold from_str
  rw [if_pos hA, if_neg (by simp only [List.length_cons]; omega)]
  unfold from_hex_literal
  rw [if_pos hA]
  have hlen : ('0' :: 'x' :: t).length - 2 = t.length := by
    simp only [List.length_cons]; omega
  have hdrop : ('0' :: 'x' :: t).drop 2 = t := rfl
  rw [hlen, hdrop]
  by_cases hlt : t.length < 64
  · rw [if_pos hlt]
  · rw [if_neg hlt]
    have h0 : 64 - t.length = 0 := by omega
    rw [h0, List.replicate_zero, List.nil_append]

theorem from_str_pad_nopfx {s : List Char} (hpfx : s.take 2 ≠ ['0', 'x'])
    (hs : s ≠ []) :
    from_str s = from_hex (List.replicate (64 - s.length) '0' ++ s) := by
  have hspos : 0 < s.length := List.length_pos.mpr hs
  unfold from_str
  rw [if_neg hpfx, if_neg hs]
  have hA : (('0' :: 'x' :: s).take 2 : List Char) = ['0', 'x'] := rfl
  unfold from_hex_literal
  rw [if_pos hA]
  have hlen : ('0' :: 'x' :: s).length - 2 = s.length := by
    simp only [List.length_cons]; omega
  have hdrop : ('0' :: 'x' :: s).drop 2 = s := rfl
  rw [hlen, hdrop]
  by_cases hlt : s.length < 64
  · rw [if_pos hlt]
  · rw [if_neg hlt]
    have h0 : 64 - s.length = 0 := by omega
    rw [h0, List.replicate_zero, List.nil_append]

theorem from_str_too_short_pfx : from_str ['0', 'x'] = .error .TooShort := by
  rfl

theorem from_str_too_short_nil : from_str [] = .error .TooShort := by
  rfl

theorem all_isHexDigit_replicate (k : Nat) :
    (List.replicate k '0').all isHexDigit = true := by
  rw [List.all_eq_true]
  intro x hx
  rw [List.eq_of_mem_replicate hx]
  decide

theorem pad_from_hex_ok_iff {t : List Char} :
    (∃ a, from_hex (List.replicate (64 - t.length) '0' ++ t) = .ok a) ↔
      t.length ≤ 64 ∧ t.all isHexDigit = true := by
  rw [from_hex_ok_iff, List.all_append, List.length_append, List.length_replicate,
    all_isHexDigit_replicate, Bool.true_and]
  constructor
  · rintro ⟨h1, h2⟩
    exact ⟨by omega, h2⟩
  · rintro ⟨h1, h2⟩
    exact ⟨by omega, h2⟩

theorem from_str_ok_iff_pfx {t : List Char} (ht : t ≠ []) :
    (∃ a, from_str ('0' :: 'x' :: t) = .ok a) ↔
      t.length ≤ 64 ∧ t.all isHexDigit = true := by
  rw [from_str_pad_pfx ht]
  exact pad_from_hex_ok_iff

theorem from_str_ok_iff_nopfx {s : List Char} (hpfx : s.take 2 ≠ ['0', 'x'])
    (hs : s ≠ []) :
    (∃ a, from_str s = .ok a) ↔ s.length ≤ 64 ∧ s.all isHexDigit = true := by
  rw [from_str_pad_nopfx hpfx hs]
  exact pad_from_hex_ok_iff

theorem decodePairs_pad_single (c : Char) :
    decodePairs (List.replicate 63 '0' ++ [c]) =
      (hexVal? c).map fun v => List.replicate 31 0 ++ [v] := by
  have hrw : List.replicate 63 '0' ++ [c] = List.replicate (2 * 31) '0' ++ ['0', c] := by
    have : (63 : Nat) = 62 + 1 := by omega
    rw [this, List.replicate_succ']
    simp
  rw [hrw, decodePairs_replicate_even]
  cases hv : hexVal? c with
  | none => simp [decodePairs, hexVal?_zero, hv]
  | some v => simp [decodePairs, hexVal?_zero, hv]

theorem from_str_single {c : Char} {v : Nat} (hv : hexVal? c = some v) :
    from_str ['0', 'x', c] = .ok (List.replicate 31 0 ++ [v]) := by
  have h1 : (['0', 'x', c] : List Char) = '0' :: 'x' :: [c] := rfl
  rw [h1, from_str_pad_pfx (by simp)]
  unfold from_hex
  rw [if_pos (by simp)]
  have h63 : (64 : Nat) - ([c] : List Char).length = 63 := by simp
  rw [h63, decodePairs_pad_single, hv]
  rfl

theorem from_str_invalid_hex_pfx {t : List Char} (ht : t ≠ [])
    (hbad : t.all isHexDigit = false) :
    from_str ('0' :: 'x' :: t) = .error .InvalidHexChars := by
  rw [from_str_pad_pfx ht]
  apply from_hex_not_ok
  intro a ha
  have := (from_hex_ok ha).2.1
  rw [List.all_append, hbad, Bool.and_false] at this
  cases this

theorem from_str_invalid_hex_nopfx {s : List Char} (hpfx : s.take 2 ≠ ['0', 'x'])
    (hs : s ≠ []) (hbad : s.all isHexDigit = false) :
    from_str s = .error .InvalidHexChars := by
  rw [from_str_pad_nopfx hpfx hs]
  apply from_hex_not_ok
  intro a ha
  have := (from_hex_ok ha).2.1
  rw [List.all_append, hbad, Bool.and_false] at this
  cases this

theorem from_hex_ok_or_invalid (s : List Char) :
    (∃ a, from_hex s = .ok a) ∨ from_hex s = .error .InvalidHexChars := by
  cases hfh : from_hex s with
  | ok a => exact Or.inl ⟨a, rfl⟩
  | error e =>
    right
    rw [← hfh]
    exact from_hex_not_ok fun a ha => by rw [ha] at hfh; cases hfh

theorem from_str_ne_too_short_pfx {t : List Char} (ht : t ≠ []) :
    from_str ('0' :: 'x' :: t) ≠ .error .TooShort := by
  rw [from_str_pad_pfx ht]
  rcases from_hex_ok_or_invalid (List.replicate (64 - t.length) '0' ++ t) with ⟨a, ha⟩ | he
  · rw [ha]
    simp
  · rw [he]
    simp

theorem from_str_ne_too_short_nopfx {s : List Char} (hpfx : s.take 2 ≠ ['0', 'x'])
    (hs : s ≠ []) :
    from_str s ≠ .error .TooShort := by
  rw [from_str_pad_nopfx hpfx hs]
  rcases from_hex_ok_or_invalid (List.replicate (64 - s.length) '0' ++ s) with ⟨a, ha⟩ | he
  · rw [ha]
    simp
  · rw [he]
    simp

/-! ## Lemmas about special addresses and canonical display -/

theorem is_special_append {v : Nat} (hv : v < 16) :
    is_special (List.replicate 31 0 ++ [v]) = true := by
  unfold is_special
  have ht : (List.replicate 31 0 ++ [v]).take 31 = List.replicate (31 : Nat) (0 : Nat) :=
    List.take_left' (by simp)
  have hg : (List.replicate 31 0 ++ [v]).getD 31 0 = v := by
    rw [List.getD_eq_getElem?_getD, List.getElem?_append_right (by simp)]
    simp
  rw [ht, hg]
  have hall : (List.replicate (31 : Nat) (0 : Nat)).all (· == 0) = true := by
    rw [List.all_eq_true]
    intro x hx
    rw [List.eq_of_mem_replicate hx]
    rfl
  rw [hall, decide_eq_true hv]
  rfl

theorem exists_last_of_len32 {a : List Nat} (hlen : a.length = 32) :
    ∃ t v, a = t ++ [v] ∧ t.length = 31 ∧ a.take 31 = t ∧ a.getD 31 0 = v := by
  have hdlen : (a.drop 31).length = 1 := by simp [hlen]
  obtain ⟨v, hv⟩ := List.length_eq_one.mp hdlen
  have htlen : (a.take 31).length = 31 := by simp [hlen]
  have h31 : a.take 31 ++ [v] = a := by
    have := List.take_append_drop 31 a
    rw [hv] at this
    exact this
  refine ⟨a.take 31, v, h31.symm, htlen, rfl, ?_⟩
  calc a.getD 31 0 = (a.take 31 ++ [v]).getD 31 0 := by rw [h31]
    _ = v := by
      rw [List.getD_eq_getElem?_getD, List.getElem?_append_right (by omega)]
      rw [htlen]
      simp

theorem is_special_iff {a : AccountAddress} (hlen : a.length = 32) :
    is_special a = true ↔ ∃ v, v < 16 ∧ a = List.replicate 31 0 ++ [v] := by
  constructor
  · intro h
    obtain ⟨t, v, hav, htlen, htake, hgetD⟩ := exists_last_of_len32 hlen
    unfold is_special at h
    rw [htake, hgetD, Bool.and_eq_true, decide_eq_true_eq] at h
    obtain ⟨hall, hv⟩ := h
    refine ⟨v, hv, ?_⟩
    rw [hav]
    have : t = List.replicate 31 0 := by
      rw [List.eq_replicate_iff]
      refine ⟨htlen, ?_⟩
      intro b hb
      simpa using (List.all_eq_true.mp hall) b hb
    rw [this]
  · rintro ⟨v, hv, rfl⟩
    exact is_special_append hv

theorem foldl_byte_acc : ∀ (l : List Nat) (acc : Nat),
    l.foldl (fun x b => x * 256 + b) acc =
      acc * 256 ^ l.length + l.foldl (fun x b => x * 256 + b) 0
  | [], acc => by simp
  | b :: l, acc => by
    simp only [List.foldl_cons, List.length_cons]
    rw [foldl_byte_acc l (acc * 256 + b), foldl_byte_acc l (0 * 256 + b)]
    rw [pow_succ]
    ring

theorem foldl_byte_eq_zero : ∀ (l : List Nat) (acc : Nat),
    l.foldl (fun x b => x * 256 + b) acc = 0 → acc = 0 ∧ ∀ b ∈ l, b = 0
  | [], acc, h => by simpa using h
  | b :: l, acc, h => by
    simp only [List.foldl_cons] at h
    obtain ⟨hab, hrest⟩ := foldl_byte_eq_zero l (acc * 256 + b) h
    refine ⟨by omega, ?_⟩
    intro x hx
    rcases List.mem_cons.mp hx with hx | hx
    · omega
    · exact hrest x hx

theorem to_big_uint_append_last {t : List Nat} {v : Nat} :
    to_big_uint (t ++ [v]) = to_big_uint t * 256 + v := by
  unfold to_big_uint
  rw [List.foldl_append]
  rfl

theorem is_special_iff_to_big_uint {a : AccountAddress} (hlen : a.length = 32) :
    is_special a = true ↔ to_big_uint a < 16 := by
  rw [is_special_iff hlen]
  constructor
  · rintro ⟨v, hv, rfl⟩
    rw [to_big_uint_append_last]
    have : to_big_uint (List.replicate 31 0) = 0 := rfl
    rw [this]
    omega
  · intro h
    obtain ⟨t, v, hav, htlen, _, _⟩ := exists_last_of_len32 hlen
    rw [hav, to_big_uint_append_last] at h
    have hz : to_big_uint t = 0 := by omega
    have hv : v < 16 := by omega
    obtain ⟨-, hall⟩ := foldl_byte_eq_zero t 0 hz
    refine ⟨v, hv, ?_⟩
    rw [hav]
    have : t = List.replicate 31 0 := List.eq_replicate_iff.mpr ⟨htlen, hall⟩
    rw [this]

theorem hexEncode_append : ∀ (l1 l2 : List Nat),
    hexEncode (l1 ++ l2) = hexEncode l1 ++ hexEncode l2
  | [], _ => rfl
  | b :: l1, l2 => by
    simp [hexEncode, hexEncode_append l1 l2]

theorem encodeDigit_zero : encodeDigit 0 = '0' := by
  decide

theorem hexEncode_replicate_zero : ∀ (n : Nat),
    hexEncode (List.replicate n 0) = List.replicate (2 * n) '0'
  | 0 => rfl
  | n + 1 => by
    have h2 : 2 * (n + 1) = 2 * n + 1 + 1 := by omega
    rw [List.replicate_succ, h2, List.replicate_succ, List.replicate_succ]
    show hexEncodeByte 0 ++ hexEncode (List.replicate n 0) = _
    rw [hexEncode_replicate_zero n]
    simp [hexEncodeByte, encodeDigit_zero]

theorem dropWhile_zero_replicate : ∀ (n : Nat) (l : List Char),
    (List.replicate n '0' ++ l).dropWhile (· == '0') = l.dropWhile (· == '0')
  | 0, l => rfl
  | n + 1, l => by
    rw [List.replicate_succ, List.cons_append, List.dropWhile_cons_of_pos (by rfl)]
    exact dropWhile_zero_replicate n l

theorem encodeDigit_ne_zero : ∀ v, v < 16 → v ≠ 0 → (encodeDigit v == '0') = false := by
  decide

theorem hexEncodeByte_small {v : Nat} (hv : v < 16) :
    hexEncodeByte v = ['0', encodeDigit v] := by
  unfold hexEncodeByte
  have h1 : v / 16 = 0 := by omega
  have h2 : v % 16 = v := by omega
  rw [h1, h2, encodeDigit_zero]

theorem short_str_special {v : Nat} (hv : v < 16) :
    short_str_lossless (List.replicate 31 0 ++ [v]) = [encodeDigit v] := by
  have hone : hexEncode [v] = hexEncodeByte v := by
    simp [hexEncode]
  have henc : hexEncode (List.replicate 31 0 ++ [v]) =
      List.replicate 63 '0' ++ [encodeDigit v] := by
    rw [hexEncode_append, hexEncode_replicate_zero, hone, hexEncodeByte_small hv]
    rw [show (2 * 31 : Nat) = 62 from rfl,
      show (63 : Nat) = 62 + 1 from rfl, List.replicate_succ']
    simp
  unfold short_str_lossless
  rw [henc, dropWhile_zero_replicate]
  by_cases hv0 : v = 0
  · subst hv0
    decide
  · have hne : (encodeDigit v == '0') = false := encodeDigit_ne_zero v hv hv0
    rw [List.dropWhile_cons_of_neg (by simp [hne])]
    rfl

theorem to_standard_string_special {v : Nat} (hv : v < 16) :
    to_standard_string (List.replicate 31 0 ++ [v]) = ['0', 'x', encodeDigit v] := by
  unfold to_standard_string
  rw [if_pos (is_special_append hv), short_str_special hv]

theorem to_standard_string_nonspecial {a : AccountAddress} (h : is_special a = false) :
    to_standard_string a = '0' :: 'x' :: hexEncode a := by
  unfold to_standard_string to_canonical_string
  rw [if_neg (by simp [h])]

theorem from_str_std_special {v : Nat} (hv : v < 16) :
    from_str (to_standard_string (List.replicate 31 0 ++ [v])) =
      .ok (List.replicate 31 0 ++ [v]) := by
  rw [to_standard_string_special hv]
  exact from_str_single (hexVal?_encodeDigit v hv)

theorem from_str_std_nonspecial {a : AccountAddress} (hlen : a.length = 32)
    (hbnd : ∀ b ∈ a, b < 256) (h : is_special a = false) :
    from_str (to_standard_string a) = .ok a := by
  rw [to_standard_string_nonspecial h]
  have hlen64 : (hexEncode a).length = 64 := by
    rw [hexEncode_length, hlen]
  have hne : hexEncode a ≠ [] := by
    intro hnil
    rw [hnil] at hlen64
    cases hlen64
  rw [from_str_pad_pfx hne]
  have h0 : 64 - (hexEncode a).length = 0 := by omega
  rw [h0, List.replicate_zero, List.nil_append]
  unfold from_hex
  rw [if_pos hlen64, decodePairs_hexEncode a hbnd]

theorem from_str_strict_of_ok {s : List Char} {a : AccountAddress}
    (hpfx : s.take 2 = ['0', 'x']) (hfs : from_str s = .ok a)
    (hcase : s.length = 66 ∨ (is_special a = true ∧ s.length = 3)) :
    from_str_strict s = .ok a := by
  simp only [from_str_strict, hpfx, if_true, hfs]
  rcases hcase with h66 | ⟨hsp, h3⟩
  · rw [if_neg (by omega)]
  · rw [if_pos (by omega), if_neg (by simp [hsp]), if_neg (by omega)]

theorem from_str_strict_no_pfx {s : List Char} (h : s.take 2 ≠ ['0', 'x']) :
    from_str_strict s = .error .LeadingZeroXRequired := by
  unfold from_str_strict
  rw [if_neg h]

theorem from_str_strict_err_propagate {s : List Char} {e : AccountAddressParseError}
    (hpfx : s.take 2 = ['0', 'x']) (hfs : from_str s = .error e) :
    from_str_strict s = .error e := by
  simp only [from_str_strict, hpfx, if_true, hfs]

theorem from_str_strict_long_form {s : List Char} {a : AccountAddress}
    (hpfx : s.take 2 = ['0', 'x']) (hfs : from_str s = .ok a)
    (hns : is_special a = false) (hne : s.length ≠ 66) :
    from_str_strict s = .error .LongFormRequiredUnlessSpecial := by
  simp only [from_str_strict, hpfx, if_true, hfs]
  rw [if_pos hne, if_pos (by simp [hns])]

theorem from_str_strict_padding {s : List Char} {a : AccountAddress}
    (hpfx : s.take 2 = ['0', 'x']) (hfs : from_str s = .ok a)
    (hsp : is_special a = true) (hne66 : s.length ≠ 66) (hne3 : s.length ≠ 3) :
    from_str_strict s = .error .InvalidPaddingZeroes := by
  simp only [from_str_strict, hpfx, if_true, hfs]
  rw [if_pos hne66, if_neg (by simp [hsp]), if_pos hne3]

theorem from_str_strict_ok_iff (s : List Char) :
    (∃ a, from_str_strict s = .ok a) ↔
      s.take 2 = ['0', 'x']
        ∧ ((s.length = 66 ∧ (s.drop 2).all isHexDigit = true)
          ∨ (s.length = 3 ∧ (s.drop 2).all isHexDigit = true)) := by
  constructor
  · rintro ⟨a, ha⟩
    by_cases hpfx : s.take 2 = ['0', 'x']
    case neg =>
      rw [from_str_strict_no_pfx hpfx] at ha
      cases ha
    obtain ⟨t, rfl⟩ := take_two_split hpfx
    cases hfs0 : from_str ('0' :: 'x' :: t) with
    | error e =>
      rw [from_str_strict_err_propagate hpfx hfs0] at ha
      cases ha
    | ok a0 =>
      have ht : t ≠ [] := by
        rintro rfl
        rw [from_str_too_short_pfx] at hfs0
        cases hfs0
      obtain ⟨hle, hhex⟩ := (from_str_ok_iff_pfx ht).mp ⟨a0, hfs0⟩
      have hdrop : (('0' :: 'x' :: t).drop 2).all isHexDigit = true := by
        simpa using hhex
      refine ⟨hpfx, ?_⟩
      by_cases h66 : ('0' :: 'x' :: t).length = 66
      · exact Or.inl ⟨h66, hdrop⟩
      · by_cases hspa : is_special a0 = true
        · by_cases h3 : ('0' :: 'x' :: t).length = 3
          · exact Or.inr ⟨h3, hdrop⟩
          · rw [from_str_strict_padding hpfx hfs0 hspa h66 h3] at ha
            cases ha
        · rw [from_str_strict_long_form hpfx hfs0
            (Bool.eq_false_iff.mpr hspa) h66] at ha
          cases ha
  · rintro ⟨hpfx, hcase⟩
    obtain ⟨t, rfl⟩ := take_two_split hpfx
    rcases hcase with ⟨h66, hhex⟩ | ⟨h3, hhex⟩
    · have ht : t ≠ [] := by
        rintro rfl
        simp at h66
      have hhex' : t.all isHexDigit = true := by
        simpa using hhex
      have hle : t.length ≤ 64 := by
        simp only [List.length_cons] at h66
        omega
      obtain ⟨a, hfs⟩ := (from_str_ok_iff_pfx ht).mpr ⟨hle, hhex'⟩
      exact ⟨a, from_str_strict_of_ok hpfx hfs (Or.inl h66)⟩
    · have ht1 : t.length = 1 := by
        simp only [List.length_cons] at h3
        omega
      obtain ⟨c, rfl⟩ := List.length_eq_one.mp ht1
      have hc : isHexDigit c = true := by
        simpa using hhex
      obtain ⟨v, hv⟩ := isHexDigit_iff.mp hc
      have hv16 := hexVal?_lt hv
      refine ⟨List.replicate 31 0 ++ [v],
        from_str_strict_of_ok hpfx (from_str_single hv)
          (Or.inr ⟨is_special_append hv16, h3⟩)⟩

/-! ## Claim theorems -/

/-- C1: `AuthenticationKey::from_preimage(p, s)` is the SHA3-256 hash of `p`
with the single scheme byte appended as a suffix; `ed25519` derives from the
public key's raw bytes under `Scheme::Ed25519`; `auid` derives from the txn
hash concatenated with the 8-byte little-endian counter under
`Scheme::DeriveAuid`; `object_address_from_object` derives from the source
bytes concatenated with the derive-from bytes under
`Scheme::DeriveObjectAddressFromObject`. -/
theorem authentication_key_derivation_spec :
    ∀ (sha3 : Sha3) (p : List Nat) (s : Scheme) (pk : Ed25519PublicKey)
      (txn_hash : List Nat) (counter : Nat) (source derive_from : AccountAddress),
      from_preimage sha3 p s = sha3 (p ++ [s.toU8])
        ∧ AuthenticationKey.ed25519 sha3 pk =
            from_preimage sha3 pk.to_bytes Scheme.Ed25519
        ∧ AuthenticationKey.auid sha3 txn_hash counter =
            from_preimage sha3 (txn_hash ++ u64_to_le_bytes counter) Scheme.DeriveAuid
        ∧ (u64_to_le_bytes counter).length = 8
        ∧ AuthenticationKey.object_address_from_object sha3 source derive_from =
            from_preimage sha3 (source ++ derive_from)
              Scheme.DeriveObjectAddressFromObject := by
  intro sha3 p s pk txn_hash counter source derive_from
  exact ⟨rfl, rfl, rfl, by simp [u64_to_le_bytes], rfl⟩

/-- C6 counterexample: `from_str("abc")` does not fail — `a`, `b`, `c` are
valid hex digits, so relaxed parsing zero-pads and succeeds with the address
`0x...0abc`. -/
theorem from_str_abc_counterexample :
    from_str (String.toList "abc") = .ok (List.replicate 30 0 ++ [10, 188]) := by
  decide

/-- C6 (amended): `from_str("abc")` succeeds with the zero-padded address
`0x...0abc` (all three chars are hex digits), and `from_str("")` fails with
`TooShort`. -/
theorem from_str_abc_spec :
    from_str (String.toList "abc") = .ok (List.replicate 30 0 ++ [10, 188])
      ∧ from_str (String.toList "") = .error .TooShort := by
  constructor
  · decide
  · decide

/-- C8: two `SignedTransaction`s compare equal iff their `raw_txn` and
`authenticator` fields are equal, regardless of the population state of the
three memoized caches. -/
theorem signed_transaction_eq_spec :
    ∀ (s1 s2 : SignedTransaction),
      (SignedTransaction.eq s1 s2 = true ↔
        s1.raw_txn = s2.raw_txn ∧ s1.authenticator = s2.authenticator)
        ∧ (∀ (raw : RawTransaction) (auth : TransactionAuthenticator)
            (c1 c2 d1 d2 : Option Nat) (c3 d3 : Option HashValue),
            SignedTransaction.eq ⟨raw, auth, c1, c2, c3⟩ ⟨raw, auth, d1, d2, d3⟩ = true) := by
  intro s1 s2
  constructor
  · simp [SignedTransaction.eq]
  · intro raw auth c1 c2 d1 d2 c3 d3
    simp [SignedTransaction.eq]

/-- C8 witness: a populated-cache copy equals its fresh-cache original. -/
theorem signed_transaction_eq_spec_witness :
    SignedTransaction.eq
      ⟨⟨List.replicate 32 0, 0, .Script ⟨[]⟩, 0, 0, 0, ⟨0⟩⟩,
        .Ed25519 ⟨[1]⟩ ⟨[2]⟩, none, none, none⟩
      ⟨⟨List.replicate 32 0, 0, .Script ⟨[]⟩, 0, 0, 0, ⟨0⟩⟩,
        .Ed25519 ⟨[1]⟩ ⟨[2]⟩, some 7, some 9, some (List.replicate 32 1)⟩ = true :=
  (signed_transaction_eq_spec
      ⟨⟨List.replicate 32 0, 0, .Script ⟨[]⟩, 0, 0, 0, ⟨0⟩⟩,
        .Ed25519 ⟨[1]⟩ ⟨[2]⟩, none, none, none⟩
      ⟨⟨List.replicate 32 0, 0, .Script ⟨[]⟩, 0, 0, 0, ⟨0⟩⟩,
        .Ed25519 ⟨[1]⟩ ⟨[2]⟩, some 7, some 9, some (List.replicate 32 1)⟩).2
    ⟨List.replicate 32 0, 0, .Script ⟨[]⟩, 0, 0, 0, ⟨0⟩⟩
    (.Ed25519 ⟨[1]⟩ ⟨[2]⟩) none none (some 7) (some 9) none
    (some (List.replicate 32 1))

/-- C9: `check_signature` returns `Ok` exactly when the authenticator's
`verify` succeeds on the raw transaction, and the returned
`SignatureCheckedTransaction` wraps the original transaction unchanged;
`verify_signature` succeeds under exactly the same condition. -/
theorem check_signature_spec :
    ∀ (sigVerify : SigVerify) (t : SignedTransaction),
      ((∃ ct, SignedTransaction.check_signature sigVerify t = .ok ct) ↔
          TransactionAuthenticator.verify sigVerify t.authenticator t.raw_txn = true)
        ∧ (∀ ct, SignedTransaction.check_signature sigVerify t = .ok ct →
            ct.inner = t ∧ ct.inner.raw_txn = t.raw_txn
              ∧ ct.inner.authenticator = t.authenticator)
        ∧ (SignedTransaction.verify_signature sigVerify t = .ok () ↔
            TransactionAuthenticator.verify sigVerify t.authenticator t.raw_txn = true)
        ∧ (SignedTransaction.verify_signature sigVerify t = .ok () ↔
            ∃ ct, SignedTransaction.check_signature sigVerify t = .ok ct) := by
  intro sigVerify t
  unfold SignedTransaction.check_signature SignedTransaction.verify_signature
  by_cases hv : TransactionAuthenticator.verify sigVerify t.authenticator t.raw_txn = true
  · rw [if_pos hv, if_pos hv]
    refine ⟨⟨fun _ => hv, fun _ => ⟨⟨t⟩, rfl⟩⟩, ?_, ?_, ?_⟩
    · intro ct hct
      cases hct
      exact ⟨rfl, rfl, rfl⟩
    · simp [hv]
    · simp
  · rw [if_neg hv, if_neg hv]
    refine ⟨?_, ?_, ?_, ?_⟩
    · constructor
      · rintro ⟨ct, hct⟩
        cases hct
      · intro h
        exact absurd h hv
    · intro ct hct
      cases hct
    · constructor
      · intro h
        cases h
      · intro h
        exact absurd h hv
    · constructor
      · intro h
        cases h
      · rintro ⟨ct, hct⟩
        cases hct

/-- C9 witness: with an always-true verify capability, `check_signature`
succeeds on a concrete transaction and wraps it unchanged. -/
theorem check_signature_spec_witness :
    (⟨⟨⟨List.replicate 32 0, 0, .Script ⟨[]⟩, 0, 0, 0, ⟨0⟩⟩,
          .Ed25519 ⟨[1]⟩ ⟨[2]⟩, none, none, none⟩⟩ :
        SignatureCheckedTransaction).inner =
      ⟨⟨List.replicate 32 0, 0, .Script ⟨[]⟩, 0, 0, 0, ⟨0⟩⟩,
        .Ed25519 ⟨[1]⟩ ⟨[2]⟩, none, none, none⟩ :=
  ((check_signature_spec (fun _ _ _ => true)
      ⟨⟨List.replicate 32 0, 0, .Script ⟨[]⟩, 0, 0, 0, ⟨0⟩⟩,
        .Ed25519 ⟨[1]⟩ ⟨[2]⟩, none, none, none⟩).2.1
    ⟨⟨⟨List.replicate 32 0, 0, .Script ⟨[]⟩, 0, 0, 0, ⟨0⟩⟩,
        .Ed25519 ⟨[1]⟩ ⟨[2]⟩, none, none, none⟩⟩
    (by rfl)).1

/-- C10: `sender()` returns an Ed25519 `AccountAuthenticator` built from the
same public key and signature; its scheme is `Ed25519`, its signature count
is 1, and its authentication key always exists (`NoAccountAuthenticator` is
never returned as the sender). -/
theorem sender_spec :
    ∀ (sha3 : Sha3) (auth : TransactionAuthenticator),
      (∀ pk sig, TransactionAuthenticator.sender (.Ed25519 pk sig) =
          AccountAuthenticator.Ed25519 pk sig)
        ∧ (TransactionAuthenticator.sender auth).scheme = Scheme.Ed25519
        ∧ (TransactionAuthenticator.sender auth).number_of_signatures = 1
        ∧ (AccountAuthenticator.authentication_key sha3
            (TransactionAuthenticator.sender auth)).isSome = true
        ∧ TransactionAuthenticator.sender auth ≠
            AccountAuthenticator.NoAccountAuthenticator := by
  intro sha3 auth
  cases auth with
  | Ed25519 pk sig =>
    refine ⟨fun _ _ => rfl, rfl, rfl, rfl, ?_⟩
    intro h
    cases h

/-- C7: `is_special` is true iff the first 31 bytes are zero and the last
byte is strictly below 16; equivalently, exactly the sixteen addresses with
value 0x0 through 0xf are special, and 0x10 and above are not. -/
theorem is_special_spec :
    ∀ (a : AccountAddress), a.length = 32 → (∀ b ∈ a, b < 256) →
      (is_special a = true ↔ (∀ b ∈ a.take 31, b = 0) ∧ a.getD 31 0 < 16)
        ∧ (is_special a = true ↔ to_big_uint a < 16)
        ∧ (is_special a = true ↔ ∃ v, v < 16 ∧ a = List.replicate 31 0 ++ [v]) := by
  intro a hlen _
  refine ⟨?_, is_special_iff_to_big_uint hlen, is_special_iff hlen⟩
  unfold is_special
  rw [Bool.and_eq_true, decide_eq_true_eq, List.all_eq_true]
  constructor
  · rintro ⟨h1, h2⟩
    exact ⟨fun b hb => by simpa using h1 b hb, h2⟩
  · rintro ⟨h1, h2⟩
    exact ⟨fun b hb => by simpa using h1 b hb, h2⟩

/-- C7 witness: the special address `0x5` has value below 16. -/
theorem is_special_spec_witness :
    to_big_uint (List.replicate 31 0 ++ [5]) < 16 :=
  ((is_special_spec (List.replicate 31 0 ++ [5]) (by decide)
      (by decide)).2.1).mp (by decide)

/-- C5: relaxed `from_str` accepts an optional `0x` prefix followed by 1 to
64 hex chars, padding with leading zeros to 32 bytes; it fails with
`TooShort` exactly when the hex part is empty (empty input or bare `"0x"`)
and with `InvalidHexChars` when the hex part contains a non-hex char. -/
theorem from_str_relaxed_spec :
    (∀ s : List Char,
      ((∃ a, from_str s = .ok a) ↔
        1 ≤ (if s.take 2 = ['0', 'x'] then s.drop 2 else s).length
          ∧ (if s.take 2 = ['0', 'x'] then s.drop 2 else s).length ≤ 64
          ∧ (if s.take 2 = ['0', 'x'] then s.drop 2 else s).all isHexDigit = true)
        ∧ ((if s.take 2 = ['0', 'x'] then s.drop 2 else s) ≠ [] →
            from_str s = from_hex (List.replicate
              (64 - (if s.take 2 = ['0', 'x'] then s.drop 2 else s).length) '0'
              ++ (if s.take 2 = ['0', 'x'] then s.drop 2 else s)))
        ∧ (from_str s = .error .TooShort ↔
            (if s.take 2 = ['0', 'x'] then s.drop 2 else s) = [])
        ∧ ((if s.take 2 = ['0', 'x'] then s.drop 2 else s) ≠ [] →
            (if s.take 2 = ['0', 'x'] then s.drop 2 else s).all isHexDigit = false →
            from_str s = .error .InvalidHexChars))
      ∧ from_str [] = .error .TooShort
      ∧ from_str ['0', 'x'] = .error .TooShort := by
  refine ⟨?_, rfl, rfl⟩
  intro s
  by_cases hpfx : s.take 2 = ['0', 'x']
  · obtain ⟨t, rfl⟩ := take_two_split hpfx
    simp only [if_pos hpfx, List.drop_succ_cons, List.drop_zero]
    by_cases ht : t = []
    · subst ht
      refine ⟨?_, ?_, ?_, ?_⟩
      · rw [from_str_too_short_pfx]
        simp
      · intro h
        exact absurd rfl h
      · rw [from_str_too_short_pfx]
        simp
      · intro h
        exact absurd rfl h
    · refine ⟨?_, fun _ => from_str_pad_pfx ht, ?_,
        fun _ => from_str_invalid_hex_pfx ht⟩
      · rw [from_str_ok_iff_pfx ht]
        have hpos : 0 < t.length := List.length_pos.mpr ht
        constructor
        · rintro ⟨h1, h2⟩
          exact ⟨by omega, h1, h2⟩
        · rintro ⟨_, h1, h2⟩
          exact ⟨h1, h2⟩
      · constructor
        · intro h
          exact absurd h (from_str_ne_too_short_pfx ht)
        · intro h
          exact absurd h ht
  · rw [if_neg hpfx]
    by_cases hs : s = []
    · subst hs
      refine ⟨?_, ?_, ?_, ?_⟩
      · rw [from_str_too_short_nil]
        simp
      · intro h
        exact absurd rfl h
      · rw [from_str_too_short_nil]
        simp
      · intro h
        exact absurd rfl h
    · refine ⟨?_, fun _ => from_str_pad_nopfx hpfx hs, ?_,
        fun _ => from_str_invalid_hex_nopfx hpfx hs⟩
      · rw [from_str_ok_iff_nopfx hpfx hs]
        have hpos : 0 < s.length := List.length_pos.mpr hs
        constructor
        · rintro ⟨h1, h2⟩
          exact ⟨by omega, h1, h2⟩
        · rintro ⟨_, h1, h2⟩
          exact ⟨h1, h2⟩
      · constructor
        · intro h
          exact absurd h (from_str_ne_too_short_nopfx hpfx hs)
        · intro h
          exact absurd h hs

/-- C5 witness: `"7b"` (no prefix, two hex chars) is accepted. -/
theorem from_str_relaxed_spec_witness :
    ∃ a, from_str ['7', 'b'] = .ok a :=
  ((from_str_relaxed_spec.1 ['7', 'b']).1).mpr (by decide)

/-- C4: `to_standard_string` renders special addresses as `0x` plus the
minimal one-char short form and all others as `0x` plus the full 64-char
lowercase hex form; both `from_str` and `from_str_strict` parse the
canonical string back to the same address, so canonicalizing after parsing
the canonical string is idempotent. -/
theorem to_standard_string_roundtrip_spec :
    ∀ (a : AccountAddress), a.length = 32 → (∀ b ∈ a, b < 256) →
      (is_special a = true →
          ∃ v, v < 16 ∧ a = List.replicate 31 0 ++ [v]
            ∧ to_standard_string a = ['0', 'x', encodeDigit v])
        ∧ (is_special a = false →
            to_standard_string a = '0' :: 'x' :: hexEncode a
              ∧ (hexEncode a).length = 64)
        ∧ from_str (to_standard_string a) = .ok a
        ∧ from_str_strict (to_standard_string a) = .ok a
        ∧ (∀ b, from_str (to_standard_string a) = .ok b →
            to_standard_string b = to_standard_string a) := by
  intro a hlen hbnd
  by_cases hsp : is_special a = true
  · obtain ⟨v, hv, hae⟩ := (is_special_iff hlen).mp hsp
    subst hae
    have hfs := from_str_std_special hv
    have hB : is_special (List.replicate 31 0 ++ [v]) = false →
        to_standard_string (List.replicate 31 0 ++ [v]) =
            '0' :: 'x' :: hexEncode (List.replicate 31 0 ++ [v])
          ∧ (hexEncode (List.replicate 31 0 ++ [v])).length = 64 := by
      intro h
      rw [hsp] at h
      cases h
    refine ⟨fun _ => ⟨v, hv, rfl, to_standard_string_special hv⟩, hB, hfs, ?_, ?_⟩
    · rw [to_standard_string_special hv]
      refine from_str_strict_of_ok rfl ?_ (Or.inr ⟨is_special_append hv, rfl⟩)
      rw [← to_standard_string_special hv]
      exact hfs
    · intro b hb
      rw [hfs] at hb
      cases hb
      rfl
  · have hsp' : is_special a = false := Bool.eq_false_iff.mpr hsp
    have hfs := from_str_std_nonspecial hlen hbnd hsp'
    refine ⟨fun h => absurd h hsp,
      fun _ => ⟨to_standard_string_nonspecial hsp', by rw [hexEncode_length, hlen]⟩,
      hfs, ?_, ?_⟩
    · refine from_str_strict_of_ok ?_ hfs (Or.inl ?_)
      · rw [to_standard_string_nonspecial hsp']
        rfl
      · rw [to_standard_string_nonspecial hsp']
        simp [hexEncode_length, hlen]
    · intro b hb
      rw [hfs] at hb
      cases hb
      rfl

/-- C4 witness: the canonical string of `0x1` strictly round-trips. -/
theorem to_standard_string_roundtrip_spec_witness :
    from_str_strict (to_standard_string (List.replicate 31 0 ++ [1])) =
      .ok (List.replicate 31 0 ++ [1]) :=
  (to_standard_string_roundtrip_spec (List.replicate 31 0 ++ [1])
      (by decide) (by decide)).2.2.2.1

/-- C2: `from_str_strict` succeeds exactly on `0x` plus 64 hex chars, or
`0x` plus one hex char (a special address `0x0`..`0xf`); it fails with
`LeadingZeroXRequired` without the `0x` prefix, with
`LongFormRequiredUnlessSpecial` when a prefixed short input denotes a
non-special address, and with `InvalidPaddingZeroes` when a prefixed input
denotes a special address but is neither the 64-char long form nor one hex
char; in particular `"0x1"` succeeds, `"0x01"` fails with
`InvalidPaddingZeroes`, and `"1"` fails with `LeadingZeroXRequired`. -/
theorem from_str_strict_spec :
    (∀ s : List Char,
      ((∃ a, from_str_strict s = .ok a) ↔
        s.take 2 = ['0', 'x']
          ∧ ((s.length = 66 ∧ (s.drop 2).all isHexDigit = true)
            ∨ (s.length = 3 ∧ (s.drop 2).all isHexDigit = true)))
        ∧ (s.take 2 ≠ ['0', 'x'] →
            from_str_strict s = .error .LeadingZeroXRequired)
        ∧ (∀ a, s.take 2 = ['0', 'x'] → from_str s = .ok a →
            is_special a = false → s.length ≠ 66 →
            from_str_strict s = .error .LongFormRequiredUnlessSpecial)
        ∧ (∀ a, s.take 2 = ['0', 'x'] → from_str s = .ok a →
            is_special a = true → s.length ≠ 66 → s.length ≠ 3 →
            from_str_strict s = .error .InvalidPaddingZeroes))
      ∧ from_str_strict (String.toList "0x1") = .ok (List.replicate 31 0 ++ [1])
      ∧ from_str_strict (String.toList "0x01") = .error .InvalidPaddingZeroes
      ∧ from_str_strict (String.toList "1") = .error .LeadingZeroXRequired := by
  refine ⟨?_, by decide, by decide, by decide⟩
  intro s
  exact ⟨from_str_strict_ok_iff s,
    from_str_strict_no_pfx,
    fun a hpfx hfs hns hne => from_str_strict_long_form hpfx hfs hns hne,
    fun a hpfx hfs hsp hne66 hne3 =>
      from_str_strict_padding hpfx hfs hsp hne66 hne3⟩

/-- C2 witness: `"zz"` lacks the `0x` prefix and is rejected with
`LeadingZeroXRequired`. -/
theorem from_str_strict_spec_witness :
    from_str_strict ['z', 'z'] = .error .LeadingZeroXRequired :=
  (from_str_strict_spec.1 ['z', 'z']).2.1 (by decide)

/-- C10 witness: a concrete sender has exactly one signature. -/
theorem sender_spec_witness :
    (TransactionAuthenticator.sender
        (.Ed25519 ⟨[1]⟩ ⟨[2]⟩)).number_of_signatures = 1 :=
  (sender_spec (fun _ => List.replicate 32 0)
      (.Ed25519 ⟨[1]⟩ ⟨[2]⟩)).2.2.1

end IcAptos
